import Mathlib

/-!
Verification of the PyEEM CaryEclipse instrument-file decoder
(src/pyeem/instruments/agilent/cary_eclipse.py) against its specification.

The decoder is shallowly embedded: a parsed CSV table is a header (the list
of column names, as pandas.read_csv produces them — read_csv mangles
duplicate header fields, so the names are unique as read) together with the
data rows, each row a list of cells.  A cell is either a numeric value, a
leftover text token, or a missing value (pandas NaN).  `pd.to_numeric(...,
errors="coerce")` becomes `coerceCell`, `DataFrame.dropna` becomes the
`dropAllNaCols` / `dropAllNaRows` pair, Python's `l[:k]` slice (with its
negative-index semantics) becomes `pySlice`, and a Python exception
escaping a loader is modelled as `Option.none`.
-/

namespace PyEEM

/-- One table entry after CSV parsing: a numeric value, a stray text token,
or a missing value (NaN). -/
inductive Cell where
  | num (q : ℚ)
  | str (s : String)
  | na
deriving DecidableEq

/-- `pandas.isna` on one cell: only the missing marker is NA (text is not). -/
def Cell.isNa : Cell → Bool
  | Cell.na => true
  | _ => false

/-- Value of a nonempty all-digit character list, `none` if a non-digit occurs. -/
def decDigits? (cs : List Char) : Option ℕ :=
  if cs.all Char.isDigit then some (cs.foldl (fun n c => 10 * n + (c.toNat - 48)) 0)
  else none

/-- Surrounding whitespace stripped, the way Python's `float()` strips it. -/
def trimWs (cs : List Char) : List Char :=
  ((cs.dropWhile Char.isWhitespace).reverse.dropWhile Char.isWhitespace).reverse

/-- The exact rational `±(i + f / 10^fl)` of a parsed decimal literal with
integer part `i`, fractional digits `f` of width `fl`, and sign `neg`. -/
def ratVal (neg : Bool) (i f : ℕ) (fl : ℕ) : ℚ :=
  Rat.divInt (if neg then -((i * 10 ^ fl + f : ℕ) : ℤ) else ((i * 10 ^ fl + f : ℕ) : ℤ))
    ((10 : ℤ) ^ fl)

/-- Best-effort decimal parse of a text token, modelling Python's `float()`
as used by `pd.to_numeric` and `astype(float)`: optional sign, digits, an
optional fractional part; surrounding whitespace stripped; anything else
fails. -/
def parseFloat? (s : String) : Option ℚ :=
  let cs := trimWs s.toList
  let signed : Bool × List Char :=
    match cs with
    | '-' :: t => (true, t)
    | '+' :: t => (false, t)
    | t => (false, t)
  let ds := signed.2
  if ds.isEmpty then none
  else
    let ip := ds.takeWhile (fun c => c ≠ '.')
    match ds.dropWhile (fun c => c ≠ '.') with
    | [] =>
      match decDigits? ip with
      | some n => some (ratVal signed.1 n 0 0)
      | none => none
    | _ :: fp =>
      if fp.contains '.' then none
      else if ip.isEmpty && fp.isEmpty then none
      else
        match decDigits? ip, decDigits? fp with
        | some i, some f => some (ratVal signed.1 i f fp.length)
        | _, _ => none

/-- `pd.to_numeric(cell, errors="coerce")`: numbers stay, text is parsed and
degrades to NA on failure, NA stays NA.  Coercion never raises. -/
def coerceCell : Cell → Cell
  | Cell.num q => Cell.num q
  | Cell.na => Cell.na
  | Cell.str s =>
    match parseFloat? s with
    | some q => Cell.num q
    | none => Cell.na

/-- Cell of a row at column position `j` (a short row reads as NA, the way a
ragged CSV line is padded with NaN by the reader). -/
def cellAt (r : List Cell) (j : ℕ) : Cell := r.getD j Cell.na

/-- Keep the entries of `l` whose position carries `true` in `mask`
(column selection applied uniformly to the header and to every row). -/
def maskFilter {α : Type} (mask : List Bool) (l : List α) : List α :=
  (mask.zip l).filterMap (fun ba => if ba.1 then some ba.2 else none)

/-- Every second entry, starting with the first: Python's `l[0::2]`
(and `l[1::2]` when applied to `l.drop 1`). -/
def everyOther {α : Type} : List α → List α
  | [] => []
  | [a] => [a]
  | a :: _ :: t => a :: everyOther t

/-- Lookup in a Python `dict` built from an association list: a later pair
with the same key overwrites an earlier one. -/
def dictLookup : List (String × String) → String → Option String
  | [], _ => none
  | p :: t, k =>
    match dictLookup t k with
    | some v => some v
    | none => if p.1 = k then some p.2 else none

/-- The segment after the last underscore: `s.rsplit("_", 1)[-1]`
(the whole string when there is no underscore). -/
def lastSeg (s : String) : String :=
  String.mk ((s.toList.reverse.takeWhile (fun c => c ≠ '_')).reverse)

/-- Does the character list start with the pattern? -/
def beginsWith : List Char → List Char → Bool
  | [], _ => true
  | _ :: _, [] => false
  | a :: ps, b :: ls => a == b && beginsWith ps ls

/-- Does the pattern occur contiguously somewhere in the list? -/
def containsSeq (p : List Char) : List Char → Bool
  | [] => p.isEmpty
  | c :: t => beginsWith p (c :: t) || containsSeq p t

/-- Python's `"_EX_" in col`: the tag the instrument puts into the decorated
emission-wavelength column names. -/
def hasEXtag (s : String) : Bool := containsSeq ("_EX_".toList) s.toList

/-- Apply a fallible function to every element; `none` as soon as one
application fails (`Index.astype(float)` raising on the first bad label). -/
def optMapAll {α β : Type} (f : α → Option β) : List α → Option (List β)
  | [] => some []
  | a :: t =>
    match f a, optMapAll f t with
    | some b, some bs => some (b :: bs)
    | _, _ => none

/-- The decoded Excitation-Emission Matrix: `load_eem`'s returned DataFrame.
The emission axis is the index (its cells are numeric by construction), the
excitation axis the float-typed column labels, `intensity` the body. -/
structure EEM where
  emissionAxis : List Cell
  excitationAxis : List ℚ
  intensity : List (List Cell)
deriving DecidableEq

/-- The column-retention mask of `df.dropna(how="all", axis=1)`: keep
column `j` exactly when some row holds a non-missing cell there. -/
def naColMask (names : List String) (rows : List (List Cell)) : List Bool :=
  (List.range names.length).map (fun j => !(rows.all (fun r => (cellAt r j).isNa)))

/-- `df.dropna(how="all", axis=1)`: drop every column whose cells are all
missing, from the header and from every row uniformly. -/
def dropAllNaCols (names : List String) (rows : List (List Cell)) :
    List String × List (List Cell) :=
  (maskFilter (naColMask names rows) names, rows.map (maskFilter (naColMask names rows)))

/-- `df.dropna(how="all", axis=0)`: drop every row whose cells are all
missing. -/
def dropAllNaRows (rows : List (List Cell)) : List (List Cell) :=
  rows.filter (fun r => !(r.all Cell.isNa))

/-- The read-and-clean stage of `load_eem` (lines 38-43): `read_csv` with
`skiprows=[1]` (the body holds the file rows after the header, so the
skipped sub-header row is its first entry), then both `dropna` calls. -/
def eemClean (header : List String) (body : List (List Cell)) :
    List String × List (List Cell) :=
  let data0 := body.drop 1
  let nc := dropAllNaCols header data0
  (nc.1, dropAllNaRows nc.2)

/-- Line 51 restricted to one row: write the coerced first-column cell back
(`df[first_ex_wl] = df[first_ex_wl].apply(pd.to_numeric, errors="coerce")`). -/
def coerceHead : List Cell → List Cell
  | [] => []
  | c :: t => coerceCell c :: t

/-- Line 61: `dict(zip(columns[1::2], columns[0::2]))` as an association
list, pairing each value column's name with the name of the axis column
immediately preceding it. -/
def zippedPairs (names : List String) : List (String × String) :=
  (everyOther (names.drop 1)).zip (everyOther names)

/-- `df.rename(columns=zipped)` on one column name. -/
def renameCol (zipped : List (String × String)) (n : String) : String :=
  (dictLookup zipped n).getD n

/-- The column-retention mask of line 77-78: keep exactly the columns whose
name does not contain the `_EX_` tag (`ex_cols` are dropped). -/
def retainMask (names : List String) : List Bool :=
  names.map (fun n => !(hasEXtag n))

/-- Lines 61 and 77-87 as a function of the cleaned column names: drop the
`_EX_`-tagged columns, rename each remaining value column to its paired
axis column's decorated name, take the segment after the last underscore
of every remaining label and convert all of them to float
(`df.columns.astype(float)`, which raises — `none` — on any bad label). -/
def exAxisOfNames (names : List String) : Option (List ℚ) :=
  let zipped := zippedPairs names
  let kept := maskFilter (retainMask names) names
  optMapAll parseFloat? (kept.map (fun n => lastSeg (renameCol zipped n)))

/-- `CaryEclipse.load_eem`: clean the table, coerce the first column and
drop every row where that coercion failed (lines 49-52; `columns[0]` on an
empty column list is an IndexError, hence `none`), coerce all columns
(line 64), capture the emission axis (line 69), drop the `_EX_` columns,
rename and float-convert the rest into the excitation axis (lines 77-87),
and return the matrix.  An escaping exception is `none`. -/
def loadEEM (header : List String) (body : List (List Cell)) : Option EEM :=
  let cleaned := eemClean header body
  let names := cleaned.1
  if names.isEmpty then none
  else
    let rows3 := (cleaned.2.map coerceHead).filter (fun r => !(cellAt r 0).isNa)
    let rows4 := rows3.map (fun r => r.map coerceCell)
    match exAxisOfNames names with
    | none => none
    | some exs =>
      some ⟨rows4.map (fun r => cellAt r 0), exs, rows4.map (maskFilter (retainMask names))⟩

/-- Python's `l[:k]` for an `int` bound `k` (pandas `iloc[:k]`): a
nonnegative bound takes a prefix, a negative bound counts from the end. -/
def pySlice {α : Type} (l : List α) (k : ℤ) : List α :=
  if 0 ≤ k then l.take k.toNat else l.take (l.length - (-k).toNat)

/-- Index of the first missing cell: `nan_rows[0]` for
`nan_rows = [i for i, x in enumerate(col.isna()) if x]`. -/
def firstNaIdx (l : List Cell) : Option ℕ := l.findIdx? Cell.isNa

/-- The truncation step of `load_absorbance` (lines 106-108): when the
sentinel column has a missing cell, cut the table at `iloc[:first - 1]`;
otherwise leave it whole. -/
def truncStep {α : Type} (rows : List α) (sentinel : List Cell) : List α :=
  match firstNaIdx sentinel with
  | none => rows
  | some i => pySlice rows ((i : ℤ) - 1)

/-- The truncation step of `load_water_raman` (lines 136-138): the same
slice, but `[... ][0]` on the list of NaN positions raises an IndexError
(`none`) when the sentinel column has no missing cell. -/
def ramanTruncStep {α : Type} (rows : List α) (sentinel : List Cell) :
    Option (List α) :=
  match firstNaIdx sentinel with
  | none => none
  | some i => some (pySlice rows ((i : ℤ) - 1))

/-- `pd.to_numeric(cell, errors="coerce")` read off as an optional number. -/
def coerceOpt (c : Cell) : Option ℚ :=
  match coerceCell c with
  | Cell.num q => some q
  | _ => none

/-- Comparison on (wavelength, value) pairs by the wavelength key, a missing
key sorting last: `DataFrame.sort_index()` with its default
`na_position="last"`. -/
def optLeB : Option ℚ → Option ℚ → Bool
  | some a, some b => decide (a ≤ b)
  | some _, none => true
  | none, some _ => false
  | none, none => true

def absLe (a b : Option ℚ × Option ℚ) : Prop := optLeB a.1 b.1 = true

instance : DecidableRel absLe := fun a b =>
  inferInstanceAs (Decidable (optLeB a.1 b.1 = true))

instance : IsTotal (Option ℚ × Option ℚ) absLe where
  total a b := by
    rcases a with ⟨x, v⟩; rcases b with ⟨y, w⟩
    rcases x with _ | x <;> rcases y with _ | y <;> simp [absLe, optLeB]
    exact le_total x y

instance : IsTrans (Option ℚ × Option ℚ) absLe where
  trans a b c hab hbc := by
    rcases a with ⟨x, v⟩; rcases b with ⟨y, w⟩; rcases c with ⟨z, u⟩
    rcases x with _ | x <;> rcases y with _ | y <;> rcases z with _ | z <;>
      simp_all [absLe, optLeB]
    exact le_trans hab hbc

/-- `CaryEclipse.load_absorbance`: `read_csv(header=1, usecols=["Wavelength
(nm)", "Abs"])` (the header argument is file row 1's fields; a missing
required column raises, hence `none`; the two columns are kept in file
order, so `iloc[:, 1]` is the later of the two), the truncation step at the
first missing value cell, coercion of both columns, `set_index` on the
renamed wavelength column, and an ascending `sort_index`.  Each output
entry is (excitation_wavelength, absorbance). -/
def loadAbsorbance (header : List String) (body : List (List Cell)) :
    Option (List (Option ℚ × Option ℚ)) :=
  match header.findIdx? (· == "Wavelength (nm)"), header.findIdx? (· == "Abs") with
  | some wj, some aj =>
    let rows := body.map (fun r => (cellAt r (min wj aj), cellAt r (max wj aj)))
    let rows2 := truncStep rows (rows.map (fun p => p.2))
    let rows3 := rows2.map (fun p => (coerceOpt p.1, coerceOpt p.2))
    let pairs := if wj ≤ aj then rows3 else rows3.map (fun p => (p.2, p.1))
    some (List.insertionSort absLe pairs)
  | _, _ => none

/-- `CaryEclipse.load_water_raman`: like the absorbance loader but with the
Raman column names, the unguarded truncation (IndexError — `none` — when
the sentinel column has no missing cell), and no sort.  Each output entry
is (emission_wavelength, intensity). -/
def loadWaterRaman (header : List String) (body : List (List Cell)) :
    Option (List (Option ℚ × Option ℚ)) :=
  match header.findIdx? (· == "Wavelength (nm)"),
      header.findIdx? (· == "Intensity (a.u.)") with
  | some wj, some ij =>
    let rows := body.map (fun r => (cellAt r (min wj ij), cellAt r (max wj ij)))
    match ramanTruncStep rows (rows.map (fun p => p.2)) with
    | none => none
    | some rows2 =>
      let rows3 := rows2.map (fun p => (coerceOpt p.1, coerceOpt p.2))
      some (if wj ≤ ij then rows3 else rows3.map (fun p => (p.2, p.1)))
  | _, _ => none

/-! ## Helper lemmas about the embedding's building blocks -/

theorem coerceCell_na : coerceCell Cell.na = Cell.na := rfl

theorem coerceCell_idem (c : Cell) : coerceCell (coerceCell c) = coerceCell c := by
  cases c with
  | num q => rfl
  | na => rfl
  | str s =>
    simp only [coerceCell]
    cases parseFloat? s <;> rfl

theorem cellAt_coerceHead_zero (r : List Cell) :
    cellAt (coerceHead r) 0 = coerceCell (cellAt r 0) := by
  cases r <;> rfl

theorem map_coerceCell_coerceHead (r : List Cell) :
    (coerceHead r).map coerceCell = r.map coerceCell := by
  cases r with
  | nil => rfl
  | cons c t => simp [coerceHead, coerceCell_idem]

theorem cellAt_map_coerce_zero (r : List Cell) :
    cellAt (r.map coerceCell) 0 = coerceCell (cellAt r 0) := by
  cases r <;> rfl

theorem coerceHead_length (r : List Cell) : (coerceHead r).length = r.length := by
  cases r <;> rfl

@[simp]
theorem maskFilter_nil_mask {α : Type} (l : List α) : maskFilter [] l = [] := rfl

@[simp]
theorem maskFilter_nil {α : Type} (m : List Bool) : maskFilter m ([] : List α) = [] := by
  cases m <;> rfl

@[simp]
theorem maskFilter_cons_true {α : Type} (ms : List Bool) (a : α) (t : List α) :
    maskFilter (true :: ms) (a :: t) = a :: maskFilter ms t := rfl

@[simp]
theorem maskFilter_cons_false {α : Type} (ms : List Bool) (a : α) (t : List α) :
    maskFilter (false :: ms) (a :: t) = maskFilter ms t := rfl

theorem maskFilter_length_congr {α β : Type} :
    ∀ (m : List Bool) (l₁ : List α) (l₂ : List β), l₁.length = l₂.length →
      (maskFilter m l₁).length = (maskFilter m l₂).length
  | [], _, _, _ => by simp
  | _ :: _, [], l₂, h => by
    cases l₂ with
    | nil => simp
    | cons c t₂ => simp at h
  | _ :: _, _ :: _, [], h => by simp at h
  | b :: ms, a :: t₁, c :: t₂, h => by
    have ht : t₁.length = t₂.length := by simpa using h
    cases b <;> simp [maskFilter_length_congr ms t₁ t₂ ht]

theorem maskFilter_map_pred {α : Type} (p : α → Bool) :
    ∀ l : List α, maskFilter (l.map p) l = l.filter p
  | [] => rfl
  | a :: t => by
    by_cases h : p a <;>
      simp [h, List.filter_cons, maskFilter_map_pred p t]

/-- Index correspondence for column selection: position `j` of the masked
list comes from a unique original position `j₀`, the same `j₀` for every
list of the same length masked with the same mask. -/
theorem maskFilter_corr {α : Type} :
    ∀ (m : List Bool) (l₁ : List α) (j : ℕ), j < (maskFilter m l₁).length →
      ∃ j₀ : ℕ, m[j₀]? = some true ∧ (maskFilter m l₁)[j]? = l₁[j₀]? ∧
        ∀ {β : Type} (l₂ : List β), l₁.length = l₂.length →
          (maskFilter m l₂)[j]? = l₂[j₀]?
  | [], l₁, j, hj => by simp at hj
  | _ :: _, [], j, hj => by simp at hj
  | true :: ms, a :: t, 0, hj => by
    refine ⟨0, by simp, by simp, ?_⟩
    intro β l₂ h
    cases l₂ with
    | nil => simp at h
    | cons c t₂ => simp
  | true :: ms, a :: t, j + 1, hj => by
    have hj' : j < (maskFilter ms t).length := by simpa using hj
    obtain ⟨j₀, hm, h₁, h₂⟩ := maskFilter_corr ms t j hj'
    refine ⟨j₀ + 1, by simpa using hm, by simpa using h₁, ?_⟩
    intro β l₂ h
    cases l₂ with
    | nil => simp at h
    | cons c t₂ =>
      have ht : t.length = t₂.length := by simpa using h
      simpa using h₂ t₂ ht
  | false :: ms, a :: t, j, hj => by
    have hj' : j < (maskFilter ms t).length := by simpa using hj
    obtain ⟨j₀, hm, h₁, h₂⟩ := maskFilter_corr ms t j hj'
    refine ⟨j₀ + 1, by simpa using hm, by simpa using h₁, ?_⟩
    intro β l₂ h
    cases l₂ with
    | nil => simp at h
    | cons c t₂ =>
      have ht : t.length = t₂.length := by simpa using h
      simpa using h₂ t₂ ht

theorem everyOther_getElem? {α : Type} :
    ∀ (l : List α) (k : ℕ), (everyOther l)[k]? = l[2 * k]?
  | [], k => by simp [everyOther]
  | [a], 0 => rfl
  | [a], k + 1 => by
    have : 2 * (k + 1) = 2 * k + 1 + 1 := by ring
    simp [everyOther, this]
  | a :: b :: t, 0 => by simp [everyOther]
  | a :: b :: t, k + 1 => by
    have h2 : 2 * (k + 1) = 2 * k + 1 + 1 := by ring
    simpa [everyOther, h2] using everyOther_getElem? t k

theorem everyOther_sublist {α : Type} : ∀ l : List α, (everyOther l).Sublist l
  | [] => List.Sublist.refl _
  | [a] => List.Sublist.refl _
  | a :: b :: t => by
    have := everyOther_sublist t
    simpa [everyOther] using
      List.Sublist.cons₂ a ((everyOther_sublist t).trans (List.sublist_cons_self b t))

theorem zip_getElem?_eq {α β : Type} :
    ∀ {l₁ : List α} {l₂ : List β} {k : ℕ} {a : α} {b : β},
      l₁[k]? = some a → l₂[k]? = some b → (l₁.zip l₂)[k]? = some (a, b)
  | [], _, k, _, _, h₁, _ => by simp at h₁
  | _ :: _, [], k, _, _, _, h₂ => by simp at h₂
  | x :: t₁, y :: t₂, 0, a, b, h₁, h₂ => by
    simp at h₁ h₂
    simp [h₁, h₂]
  | x :: t₁, y :: t₂, k + 1, a, b, h₁, h₂ => by
    simpa using zip_getElem?_eq (by simpa using h₁) (by simpa using h₂)

theorem zipKeys_sublist {α β : Type} :
    ∀ (l₁ : List α) (l₂ : List β), ((l₁.zip l₂).map Prod.fst).Sublist l₁
  | [], _ => by simp
  | _ :: _, [] => by simp
  | a :: t₁, b :: t₂ => by
    simpa using List.Sublist.cons₂ a (zipKeys_sublist t₁ t₂)

theorem dictLookup_eq_none {ps : List (String × String)} {k : String}
    (h : k ∉ ps.map Prod.fst) : dictLookup ps k = none := by
  induction ps with
  | nil => rfl
  | cons p t ih =>
    simp only [List.map_cons, List.mem_cons] at h
    push_neg at h
    simp only [dictLookup, ih h.2]
    simp [Ne.symm h.1]

theorem dictLookup_of_nodup {ps : List (String × String)} {k v : String}
    (hnd : (ps.map Prod.fst).Nodup) (hmem : (k, v) ∈ ps) :
    dictLookup ps k = some v := by
  induction ps with
  | nil => simp at hmem
  | cons p t ih =>
    simp only [List.map_cons, List.nodup_cons] at hnd
    rcases List.mem_cons.mp hmem with h | h
    · have hk : k ∉ t.map Prod.fst := by
        rw [← h] at hnd
        exact hnd.1
      simp [dictLookup, dictLookup_eq_none hk, ← h]
    · simp [dictLookup, ih hnd.2 h]

theorem optMapAll_length {α β : Type} {f : α → Option β} :
    ∀ {l : List α} {l' : List β}, optMapAll f l = some l' → l'.length = l.length
  | [], l', h => by
    simp only [optMapAll, Option.some.injEq] at h
    simp [← h]
  | a :: t, l', h => by
    simp only [optMapAll] at h
    cases hfa : f a with
    | none => rw [hfa] at h; simp at h
    | some b =>
      rw [hfa] at h
      cases hrest : optMapAll f t with
      | none => rw [hrest] at h; simp at h
      | some bs =>
        rw [hrest] at h
        simp only [Option.some.injEq] at h
        have := optMapAll_length hrest
        simp [← h, this]

theorem optMapAll_eq_none {α β : Type} {f : α → Option β} {x : α} :
    ∀ {l : List α}, x ∈ l → f x = none → optMapAll f l = none
  | [], hx, _ => by simp at hx
  | a :: t, hx, hfx => by
    rcases List.mem_cons.mp hx with h | h
    · simp [optMapAll, ← h, hfx]
    · simp only [optMapAll, optMapAll_eq_none h hfx]
      cases f a <;> rfl

theorem optMapAll_map {α β γ : Type} (f : β → Option γ) (g : α → β) :
    ∀ l : List α, optMapAll f (l.map g) = optMapAll (fun a => f (g a)) l
  | [] => rfl
  | a :: t => by simp [optMapAll, optMapAll_map f g t]

/-! ## Characterization of `loadEEM` on success -/

/-- The data rows that survive the row-drop of lines 49-52: exactly those
rows of the cleaned table whose first-column cell coerces to a number. -/
def eemKeptRows (header : List String) (body : List (List Cell)) : List (List Cell) :=
  (eemClean header body).2.filter (fun r => !(coerceCell (cellAt r 0)).isNa)

theorem eemClean_fst (header : List String) (body : List (List Cell)) :
    (eemClean header body).1 = maskFilter (naColMask header (body.drop 1)) header := rfl

theorem mem_eemClean_rows {header : List String} {body : List (List Cell)}
    {r : List Cell} (h : r ∈ (eemClean header body).2) :
    ∃ r0 ∈ body.drop 1, r = maskFilter (naColMask header (body.drop 1)) r0 := by
  simp only [eemClean, dropAllNaCols, dropAllNaRows] at h
  obtain ⟨hmem, -⟩ := List.mem_filter.mp h
  obtain ⟨r0, hr0, rfl⟩ := List.mem_map.mp hmem
  exact ⟨r0, hr0, rfl⟩

/-- What a successful `load_eem` returns: the emission axis is the coerced
first column of the kept rows in file row order, the intensity matrix the
retained columns of the same kept rows, and the excitation axis the
float-converted relabelled column names. -/
theorem loadEEM_some_spec (header : List String) (body : List (List Cell)) (e : EEM)
    (h : loadEEM header body = some e) :
    e.emissionAxis = (eemKeptRows header body).map (fun r => coerceCell (cellAt r 0)) ∧
    e.intensity = (eemKeptRows header body).map
      (fun r => maskFilter (retainMask (eemClean header body).1) (r.map coerceCell)) ∧
    exAxisOfNames (eemClean header body).1 = some e.excitationAxis := by
  by_cases hne : (eemClean header body).1.isEmpty
  · simp [loadEEM, hne] at h
  · simp only [loadEEM] at h
    rw [if_neg hne] at h
    have hrows3 : ((eemClean header body).2.map coerceHead).filter
        (fun r => !(cellAt r 0).isNa) = (eemKeptRows header body).map coerceHead := by
      rw [List.filter_map, eemKeptRows]
      congr 1
      apply List.filter_congr
      intro r _
      simp [Function.comp, cellAt_coerceHead_zero]
    cases hax : exAxisOfNames (eemClean header body).1 with
    | none => rw [hax] at h; simp at h
    | some exs =>
      rw [hax] at h
      have he := Option.some.inj h
      subst he
      have hrows4 : (((eemClean header body).2.map coerceHead).filter
            (fun r => !(cellAt r 0).isNa)).map (fun r => r.map coerceCell) =
          (eemKeptRows header body).map (fun r => r.map coerceCell) := by
        rw [hrows3, List.map_map]
        exact List.map_congr_left (fun r _ => map_coerceCell_coerceHead r)
      refine ⟨?_, ?_, by simp [hax]⟩
      · show (((((eemClean header body).2.map coerceHead).filter
            (fun r => !(cellAt r 0).isNa)).map (fun r => r.map coerceCell)).map
              (fun r => cellAt r 0)) = _
        rw [hrows4, List.map_map]
        exact List.map_congr_left (fun r _ => cellAt_map_coerce_zero r)
      · show (((((eemClean header body).2.map coerceHead).filter
            (fun r => !(cellAt r 0).isNa)).map (fun r => r.map coerceCell)).map
              (maskFilter (retainMask (eemClean header body).1))) = _
        rw [hrows4, List.map_map]
        rfl

/-! ## C1: uniform dropping of non-coercible rows, emission axis in row order -/

/-- C1: in every successful EEM decode, each row whose first-axis-column cell
fails numeric coercion is dropped from the entire table uniformly: the
emission axis is exactly the coerced first column of the kept rows, and the
intensity matrix is exactly the retained value columns of the same kept
rows, both in original file row order (no re-sorting). -/
theorem c1_rows_dropped_uniformly (header : List String) (body : List (List Cell))
    (e : EEM) (h : loadEEM header body = some e) :
    e.emissionAxis = (eemKeptRows header body).map (fun r => coerceCell (cellAt r 0)) ∧
    e.intensity = (eemKeptRows header body).map
      (fun r => maskFilter (retainMask (eemClean header body).1) (r.map coerceCell)) := by
  obtain ⟨h1, h2, -⟩ := loadEEM_some_spec header body e h
  exact ⟨h1, h2⟩

def c1header : List String := ["A_EX_400.0", "Unnamed: 1"]

def c1body : List (List Cell) :=
  [[Cell.str "Wavelength", Cell.str "Intensity"],
   [Cell.num 300, Cell.num 5],
   [Cell.str "Params:", Cell.str "x"],
   [Cell.num 310, Cell.num 6]]

theorem c1_witness :
    (EEM.mk [Cell.num 300, Cell.num 310] [400] [[Cell.num 5], [Cell.num 6]]).emissionAxis
        = (eemKeptRows c1header c1body).map (fun r => coerceCell (cellAt r 0)) ∧
    (EEM.mk [Cell.num 300, Cell.num 310] [400] [[Cell.num 5], [Cell.num 6]]).intensity
        = (eemKeptRows c1header c1body).map
            (fun r => maskFilter (retainMask (eemClean c1header c1body).1) (r.map coerceCell)) :=
  c1_rows_dropped_uniformly c1header c1body _ (by decide)

/-! ## C3: a file whose first axis column never coerces -/

theorem c3_counterexample :
    loadEEM ["A_EX_400.0", "Unnamed: 1"]
        [[Cell.str "Wavelength", Cell.str "Intensity"],
         [Cell.str "Params", Cell.str "x"]] = some (EEM.mk [] [400] []) := by
  decide

/-- C3 (amended): when no cell of the cleaned table's first axis column
coerces to a number, `load_eem` does not raise a FormatError (no such error
exists in the code); if it returns at all — the only remaining failure mode
is column-label float conversion — the result is an empty matrix: empty
emission axis and no intensity rows. -/
theorem c3_empty_result (header : List String) (body : List (List Cell)) (e : EEM)
    (hnc : ∀ r ∈ (eemClean header body).2, (coerceCell (cellAt r 0)).isNa = true)
    (h : loadEEM header body = some e) :
    e.emissionAxis = [] ∧ e.intensity = [] := by
  obtain ⟨h1, h2, -⟩ := loadEEM_some_spec header body e h
  have hk : eemKeptRows header body = [] := by
    rw [eemKeptRows, List.filter_eq_nil_iff]
    intro r hr
    simp [hnc r hr]
  rw [hk] at h1 h2
  exact ⟨by simpa using h1, by simpa using h2⟩

theorem c3_witness :
    (EEM.mk [] [400] []).emissionAxis = [] ∧ (EEM.mk [] [400] []).intensity = [] :=
  c3_empty_result ["A_EX_400.0", "Unnamed: 1"]
    [[Cell.str "Wavelength", Cell.str "Intensity"],
     [Cell.str "Params", Cell.str "x"]] _ (by decide) (by decide)

/-! ## C6: shape invariant of the decoded matrix -/

/-- C6: for every rectangular input file on which the EEM decode succeeds,
the emission axis is as long as the intensity matrix has rows, and the
excitation axis is as long as every intensity row (the column count). -/
theorem c6_shape_invariant (header : List String) (body : List (List Cell))
    (e : EEM) (hrect : ∀ r ∈ body, r.length = header.length)
    (h : loadEEM header body = some e) :
    e.intensity.length = e.emissionAxis.length ∧
    ∀ row ∈ e.intensity, row.length = e.excitationAxis.length := by
  obtain ⟨hem, hint, hax⟩ := loadEEM_some_spec header body e h
  constructor
  · rw [hem, hint]
    simp
  · intro row hrow
    rw [hint] at hrow
    obtain ⟨r, hrK, rfl⟩ := List.mem_map.mp hrow
    have hrC : r ∈ (eemClean header body).2 := by
      simp only [eemKeptRows] at hrK
      exact (List.mem_filter.mp hrK).1
    obtain ⟨r0, hr0, rfl⟩ := mem_eemClean_rows hrC
    have hlen0 : r0.length = header.length :=
      hrect r0 ((List.drop_sublist 1 body).subset hr0)
    have hlen1 : ((maskFilter (naColMask header (body.drop 1)) r0).map coerceCell).length
        = (eemClean header body).1.length := by
      rw [List.length_map, eemClean_fst]
      exact maskFilter_length_congr _ r0 header hlen0
    simp only [exAxisOfNames] at hax
    have hexlen := optMapAll_length hax
    rw [List.length_map] at hexlen
    rw [hexlen]
    exact maskFilter_length_congr _ _ _ hlen1

def c6header : List String := ["A_EX_400.0", "Unnamed: 1"]

def c6body : List (List Cell) :=
  [[Cell.str "Wavelength", Cell.str "Intensity"],
   [Cell.num 300, Cell.num 5],
   [Cell.num 310, Cell.num 6]]

theorem c6_witness :
    (EEM.mk [Cell.num 300, Cell.num 310] [400] [[Cell.num 5], [Cell.num 6]]).intensity.length
      = (EEM.mk [Cell.num 300, Cell.num 310] [400]
          [[Cell.num 5], [Cell.num 6]]).emissionAxis.length ∧
    ∀ row ∈ (EEM.mk [Cell.num 300, Cell.num 310] [400]
        [[Cell.num 5], [Cell.num 6]]).intensity,
      row.length = (EEM.mk [Cell.num 300, Cell.num 310] [400]
          [[Cell.num 5], [Cell.num 6]]).excitationAxis.length :=
  c6_shape_invariant c6header c6body _ (by decide) (by decide)

/-! ## C8: dropping of all-missing rows and columns -/

theorem cellAt_congr_getElem? {r r' : List Cell} {j j' : ℕ}
    (h : r'[j']? = r[j]?) : cellAt r' j' = cellAt r j := by
  simp [cellAt, List.getD_eq_getElem?_getD, h]

theorem all_isNa_false_of_cellAt {r : List Cell} {j : ℕ}
    (h : (cellAt r j).isNa = false) : r.all Cell.isNa = false := by
  rw [cellAt, List.getD_eq_getElem?_getD] at h
  cases hget : r[j]? with
  | none => rw [hget] at h; simp [Cell.isNa] at h
  | some c =>
    rw [hget] at h
    simp only [Option.getD_some] at h
    exact List.all_eq_false.mpr ⟨c, List.getElem?_mem hget, by simp [h]⟩

theorem c8_counterexample :
    loadEEM ["A_EX_400.0", "Unnamed: 1", "A_EX_450.0", "Unnamed: 3"]
        [[Cell.str "Wavelength", Cell.str "Intensity",
          Cell.str "Wavelength", Cell.str "Intensity"],
         [Cell.num 400, Cell.num 1, Cell.num 400, Cell.num 2],
         [Cell.num 500, Cell.na, Cell.num 500, Cell.na],
         [Cell.num 600, Cell.num 3, Cell.num 600, Cell.num 4]]
      = some (EEM.mk [Cell.num 400, Cell.num 500, Cell.num 600] [400, 450]
          [[Cell.num 1, Cell.num 2], [Cell.na, Cell.na], [Cell.num 3, Cell.num 4]]) ∧
    [Cell.na, Cell.na] ∈
      [[Cell.num 1, Cell.num 2], [Cell.na, Cell.na], [Cell.num 3, Cell.num 4]] ∧
    [Cell.na, Cell.na].all Cell.isNa = true := by
  decide

/-- C8 (amended): every all-missing row and every all-missing column of the
raw table is dropped before reshaping — after the cleaning stage no row is
entirely missing and every column position still holds a non-missing cell
in some row.  (The decoded matrix itself can nevertheless contain a fully
blank row, when the row's axis cells are numeric but its value cells are
all missing, as `c8_counterexample` shows.) -/
theorem c8_dropna_clean (header : List String) (body : List (List Cell))
    (hrect : ∀ r ∈ body, r.length = header.length) :
    (∀ r ∈ (eemClean header body).2, r.all Cell.isNa = false) ∧
    (∀ j, j < (eemClean header body).1.length →
      ∃ r, r ∈ (eemClean header body).2 ∧ (cellAt r j).isNa = false) := by
  constructor
  · intro r hr
    simp only [eemClean, dropAllNaRows] at hr
    have := (List.mem_filter.mp hr).2
    simpa using this
  · intro j hj
    rw [eemClean_fst] at hj
    obtain ⟨j₀, hm, -, hall⟩ := maskFilter_corr (naColMask header (body.drop 1)) header j hj
    by_cases hlt : j₀ < header.length
    · have hmv : (naColMask header (body.drop 1))[j₀]?
          = some (!((body.drop 1).all (fun r => (cellAt r j₀).isNa))) := by
        simp [naColMask, List.getElem?_map, List.getElem?_range hlt]
      rw [hmv] at hm
      have hfalse : (body.drop 1).all (fun r => (cellAt r j₀).isNa) = false := by
        have := Option.some.inj hm
        simpa using this.symm
      obtain ⟨r0, hr0, hcell⟩ := List.all_eq_false.mp hfalse
      have hcell' : (cellAt r0 j₀).isNa = false := by simpa using hcell
      have hlen : header.length = r0.length :=
        (hrect r0 ((List.drop_sublist 1 body).subset hr0)).symm
      have hgot := hall r0 hlen
      have hcellEq : cellAt (maskFilter (naColMask header (body.drop 1)) r0) j
          = cellAt r0 j₀ := cellAt_congr_getElem? hgot
      refine ⟨maskFilter (naColMask header (body.drop 1)) r0, ?_, by rw [hcellEq]; exact hcell'⟩
      simp only [eemClean, dropAllNaRows, dropAllNaCols]
      rw [List.mem_filter]
      refine ⟨List.mem_map.mpr ⟨r0, hr0, rfl⟩, ?_⟩
      have : (maskFilter (naColMask header (body.drop 1)) r0).all Cell.isNa = false :=
        all_isNa_false_of_cellAt (by rw [hcellEq]; exact hcell')
      rw [this]
      rfl
    · exfalso
      have hnone : (naColMask header (body.drop 1))[j₀]? = none := by
        apply List.getElem?_eq_none
        simp only [naColMask, List.length_map, List.length_range]
        omega
      rw [hnone] at hm
      exact Option.noConfusion hm

def c8header : List String := ["A_EX_400.0", "Unnamed: 1", "A_EX_450.0", "Unnamed: 3"]

def c8body : List (List Cell) :=
  [[Cell.str "Wavelength", Cell.str "Intensity", Cell.str "Wavelength", Cell.str "Intensity"],
   [Cell.num 400, Cell.num 1, Cell.num 400, Cell.num 2],
   [Cell.num 500, Cell.na, Cell.num 500, Cell.na],
   [Cell.num 600, Cell.num 3, Cell.num 600, Cell.num 4]]

theorem c8_witness :
    (∀ r ∈ (eemClean c8header c8body).2, r.all Cell.isNa = false) ∧
    (∀ j, j < (eemClean c8header c8body).1.length →
      ∃ r, r ∈ (eemClean c8header c8body).2 ∧ (cellAt r j).isNa = false) :=
  c8_dropna_clean c8header c8body (by decide)

/-! ## C2 and C9: column pairing and excitation-axis extraction -/

theorem optMapAll_congr {α β : Type} {f g : α → Option β} :
    ∀ {l : List α}, (∀ a ∈ l, f a = g a) → optMapAll f l = optMapAll g l
  | [], _ => rfl
  | a :: t, h => by
    simp only [optMapAll, h a (List.mem_cons_self a t),
      optMapAll_congr (fun x hx => h x (List.mem_cons_of_mem a hx))]

/-- A paired-column header: each block contributes its decorated axis-column
name followed by its value-column name, in file order. -/
def blocksFlatten : List (String × String) → List String
  | [] => []
  | p :: t => p.1 :: p.2 :: blocksFlatten t

theorem everyOther_cons_blocksFlatten :
    ∀ (bs : List (String × String)) (x : String),
      everyOther (x :: blocksFlatten bs) = x :: bs.map Prod.snd
  | [], _ => rfl
  | p :: t, x => by
    show everyOther (x :: p.1 :: (p.2 :: blocksFlatten t)) = _
    simp [everyOther, everyOther_cons_blocksFlatten t p.2]

theorem everyOther_blocksFlatten :
    ∀ bs : List (String × String), everyOther (blocksFlatten bs) = bs.map Prod.fst
  | [] => rfl
  | p :: t => by
    show everyOther (p.1 :: p.2 :: blocksFlatten t) = _
    simp [everyOther, everyOther_blocksFlatten t]

theorem everyOther_drop_blocksFlatten :
    ∀ bs : List (String × String),
      everyOther ((blocksFlatten bs).drop 1) = bs.map Prod.snd
  | [] => rfl
  | p :: t => by
    show everyOther ((p.1 :: p.2 :: blocksFlatten t).drop 1) = _
    simpa using everyOther_cons_blocksFlatten t p.2

theorem zippedPairs_blocksFlatten (bs : List (String × String)) :
    zippedPairs (blocksFlatten bs) = bs.map (fun p => (p.2, p.1)) := by
  rw [zippedPairs, everyOther_drop_blocksFlatten, everyOther_blocksFlatten, List.zip_map']

theorem filter_blocksFlatten :
    ∀ bs : List (String × String), (∀ p ∈ bs, hasEXtag p.1 = true) →
      (∀ p ∈ bs, hasEXtag p.2 = false) →
      (blocksFlatten bs).filter (fun n => !(hasEXtag n)) = bs.map Prod.snd
  | [], _, _ => rfl
  | p :: t, hax, hval => by
    have h1 := hax p (List.mem_cons_self p t)
    have h2 := hval p (List.mem_cons_self p t)
    have ih := filter_blocksFlatten t (fun q hq => hax q (List.mem_cons_of_mem p hq))
      (fun q hq => hval q (List.mem_cons_of_mem p hq))
    simp [blocksFlatten, List.filter_cons, h1, h2, ih]

theorem c2_counterexample :
    loadEEM ["EmWL", "EX_400", "EmWL", "EX_450"]
        [[Cell.str "Wavelength", Cell.str "Intensity",
          Cell.str "Wavelength", Cell.str "Intensity"],
         [Cell.num 300, Cell.num 1, Cell.num 300, Cell.num 2],
         [Cell.str "Params:", Cell.str "x", Cell.str "y", Cell.str "z"]] = none := by
  decide

/-- C2 (amended): each value column is paired with the axis column
immediately preceding it by position, and the excitation axis is, in block
order, the floats parsed from the numeric suffix after the final underscore
of each block's decorated AXIS-column label — it is the axis column of a
block that carries the `_EX_`-tagged decorated name, which the decode
assigns to the paired value column before stripping the suffix (e.g.
columns `["S_EX_400", "Unnamed: 1", "S_EX_450", "Unnamed: 3"]` yield
excitation axis `[400.0, 450.0]`; the claim's own example, which decorates
the value columns instead, makes the decode raise — `c2_counterexample`). -/
theorem c2_pairing_and_suffix (bs : List (String × String))
    (hax : ∀ p ∈ bs, hasEXtag p.1 = true)
    (hval : ∀ p ∈ bs, hasEXtag p.2 = false)
    (hnd : (bs.map Prod.snd).Nodup) :
    exAxisOfNames (blocksFlatten bs) = optMapAll (fun p => parseFloat? (lastSeg p.1)) bs := by
  have hkeys : ((bs.map (fun p => (p.2, p.1))).map Prod.fst).Nodup := by
    rw [List.map_map]
    exact hnd
  simp only [exAxisOfNames]
  rw [retainMask, maskFilter_map_pred, filter_blocksFlatten bs hax hval,
    zippedPairs_blocksFlatten, List.map_map, optMapAll_map]
  apply optMapAll_congr
  intro p hp
  have hmem : (p.2, p.1) ∈ bs.map (fun q => (q.2, q.1)) :=
    List.mem_map.mpr ⟨p, hp, rfl⟩
  have hrn : renameCol (bs.map (fun q => (q.2, q.1))) p.2 = p.1 := by
    rw [renameCol, dictLookup_of_nodup hkeys hmem]
    rfl
  simp [Function.comp, hrn]

theorem c2_witness :
    exAxisOfNames (blocksFlatten [("S_EX_400", "Unnamed: 1"), ("S_EX_450", "Unnamed: 3")])
      = some [400, 450] := by
  have h := c2_pairing_and_suffix [("S_EX_400", "Unnamed: 1"), ("S_EX_450", "Unnamed: 3")]
    (by decide) (by decide) (by decide)
  exact h.trans (by decide)

/-- C9: whenever some retained value column's paired decorated label has a
suffix after its final underscore that does not parse as a number (for a
label with no underscore: the whole label), the EEM decode raises
(`astype(float)` fails) instead of returning a matrix with a corrupted
excitation axis. -/
theorem c9_bad_suffix_raises (header : List String) (body : List (List Cell))
    (k : ℕ) (a v : String)
    (hnd : (eemClean header body).1.Nodup)
    (ha : (eemClean header body).1[2 * k]? = some a)
    (hv : (eemClean header body).1[2 * k + 1]? = some v)
    (hret : hasEXtag v = false)
    (hbad : parseFloat? (lastSeg a) = none) :
    loadEEM header body = none := by
  set names := (eemClean header body).1 with hnames
  have hvmem : v ∈ names := List.getElem?_mem hv
  have hne : names.isEmpty = false := by
    cases hcase : names with
    | nil => rw [hcase] at hv; simp at hv
    | cons x t => rfl
  have hodds : (everyOther (names.drop 1))[k]? = some v := by
    rw [everyOther_getElem?, List.getElem?_drop]
    have harith : 1 + 2 * k = 2 * k + 1 := Nat.add_comm 1 (2 * k)
    rw [harith]
    exact hv
  have hevens : (everyOther names)[k]? = some a := by
    rw [everyOther_getElem?]
    exact ha
  have hmemz : (v, a) ∈ zippedPairs names :=
    List.getElem?_mem (zip_getElem?_eq hodds hevens)
  have hkeys : ((zippedPairs names).map Prod.fst).Nodup := by
    have h1 : ((zippedPairs names).map Prod.fst).Sublist (everyOther (names.drop 1)) :=
      zipKeys_sublist _ _
    have h2 : (everyOther (names.drop 1)).Sublist (names.drop 1) := everyOther_sublist _
    have h3 : (names.drop 1).Sublist names := List.drop_sublist 1 names
    exact List.Nodup.sublist ((h1.trans h2).trans h3) hnd
  have hrn : renameCol (zippedPairs names) v = a := by
    rw [renameCol, dictLookup_of_nodup hkeys hmemz]
    rfl
  have hkept : v ∈ maskFilter (retainMask names) names := by
    rw [retainMask, maskFilter_map_pred]
    exact List.mem_filter.mpr ⟨hvmem, by simp [hret]⟩
  have hax : exAxisOfNames names = none := by
    simp only [exAxisOfNames]
    refine optMapAll_eq_none (List.mem_map.mpr ⟨v, hkept, rfl⟩) ?_
    rw [hrn]
    exact hbad
  simp only [loadEEM, ← hnames, hne, Bool.false_eq_true, if_false, hax]

theorem c9_witness :
    loadEEM ["A_EX_foo", "Unnamed: 1"]
      [[Cell.str "Wavelength", Cell.str "Intensity"],
       [Cell.num 1, Cell.num 2]] = none :=
  c9_bad_suffix_raises ["A_EX_foo", "Unnamed: 1"]
    [[Cell.str "Wavelength", Cell.str "Intensity"], [Cell.num 1, Cell.num 2]]
    0 "A_EX_foo" "Unnamed: 1" (by decide) (by decide) (by decide) (by decide) (by decide)

/-! ## C4, C5, C10: the truncation step of the single-axis decoders -/

theorem c4_counterexample :
    truncStep [(10 : ℕ), 20, 30] [Cell.na, Cell.num 5, Cell.num 6] = [10, 20] ∧
    ([10, 20] : List ℕ) ≠ [] := by
  decide

/-- C4 (amended): when the sentinel column's first missing cell is at row
index `i ≥ 1`, the truncation step of both single-axis decoders returns
exactly rows `[0, i-1)` — excluding the missing row and the row before it;
in particular the column `[1.0, 2.0, NaN, NaN, 3.0]` (gap at index 2)
yields the prefix `[1.0]` of length 1.  For `i = 0` the Python slice bound
becomes `-1` and all rows but the last are returned instead
(`c4_counterexample`). -/
theorem c4_trunc_prefix {α : Type} (rows : List α) (sentinel : List Cell) (i : ℕ)
    (hfirst : firstNaIdx sentinel = some i) (hi : 1 ≤ i) :
    truncStep rows sentinel = rows.take (i - 1) ∧
    ramanTruncStep rows sentinel = some (rows.take (i - 1)) := by
  have hpos : (0 : ℤ) ≤ (i : ℤ) - 1 := by omega
  have htn : ((i : ℤ) - 1).toNat = i - 1 := by omega
  constructor
  · simp only [truncStep, hfirst, pySlice]
    rw [if_pos hpos, htn]
  · simp only [ramanTruncStep, hfirst, pySlice]
    rw [if_pos hpos, htn]

theorem c4_witness :
    truncStep [Cell.num 1, Cell.num 2, Cell.na, Cell.na, Cell.num 3]
        [Cell.num 1, Cell.num 2, Cell.na, Cell.na, Cell.num 3] = [Cell.num 1] ∧
    ramanTruncStep [Cell.num 1, Cell.num 2, Cell.na, Cell.na, Cell.num 3]
        [Cell.num 1, Cell.num 2, Cell.na, Cell.na, Cell.num 3] = some [Cell.num 1] := by
  have h := c4_trunc_prefix [Cell.num 1, Cell.num 2, Cell.na, Cell.na, Cell.num 3]
    [Cell.num 1, Cell.num 2, Cell.na, Cell.na, Cell.num 3] 2 (by decide) (by decide)
  exact ⟨h.1.trans (by decide), h.2.trans (by decide)⟩

/-- C5: the claim says both single-axis decoders return the whole table
when the sentinel column has no missing cell.  The absorbance loader does
(its truncation is guarded by `if nan_rows:`), but `load_water_raman`
evaluates `[i for i, x in enumerate(col.isna()) if x][0]` unguarded, which
raises an IndexError on a file with no missing cell — modelled as `none`.
This theorem evaluates both loaders at the failing input. -/
theorem c5_raman_no_missing_crashes :
    loadWaterRaman ["Wavelength (nm)", "Intensity (a.u.)"]
        [[Cell.num 1, Cell.num 10], [Cell.num 2, Cell.num 20], [Cell.num 3, Cell.num 30]]
      = none ∧
    loadAbsorbance ["Wavelength (nm)", "Abs"]
        [[Cell.num 1, Cell.num 10], [Cell.num 2, Cell.num 20], [Cell.num 3, Cell.num 30]]
      = some [(some 1, some 10), (some 2, some 20), (some 3, some 30)] := by
  decide

/-- C10: when the sentinel column's first missing cell is at row index 0,
the truncation slice bound is `0 - 1 = -1` and Python's `iloc[:-1]` keeps
all rows except the last; when the first missing cell is at index 1 the
slice is `iloc[:0]` and the result is empty. -/
theorem c10_slice_edges {α : Type} (rows : List α) (sentinel : List Cell) :
    (firstNaIdx sentinel = some 0 → truncStep rows sentinel = rows.dropLast) ∧
    (firstNaIdx sentinel = some 1 → truncStep rows sentinel = []) := by
  constructor
  · intro h
    simp only [truncStep, h, pySlice]
    rw [if_neg (by omega : ¬ (0 : ℤ) ≤ ((0 : ℕ) : ℤ) - 1), List.dropLast_eq_take]
    have htn : (-(((0 : ℕ) : ℤ) - 1)).toNat = 1 := by decide
    rw [htn]
  · intro h
    simp only [truncStep, h, pySlice]
    rw [if_pos (by omega : (0 : ℤ) ≤ ((1 : ℕ) : ℤ) - 1)]
    simp

theorem c10_witness :
    truncStep [(10 : ℕ), 20, 30] [Cell.na, Cell.num 5] = [10, 20] ∧
    truncStep [(10 : ℕ), 20, 30] [Cell.num 5, Cell.na] = [] := by
  have h1 := (c10_slice_edges [(10 : ℕ), 20, 30] [Cell.na, Cell.num 5]).1 (by decide)
  have h2 := (c10_slice_edges [(10 : ℕ), 20, 30] [Cell.num 5, Cell.na]).2 (by decide)
  exact ⟨h1.trans (by decide), h2⟩

/-! ## C7: absorbance output ordering -/

def c7body : List (List Cell) :=
  [[Cell.num 200, Cell.num (Rat.divInt 1 10)],
   [Cell.num 205, Cell.num (Rat.divInt 1 5)],
   [Cell.num 210, Cell.na],
   [Cell.str "X", Cell.str "X"]]

theorem c7_counterexample :
    loadAbsorbance ["Wavelength (nm)", "Abs"] c7body
      = some [(some 200, some (Rat.divInt 1 10))] ∧
    (some (205 : ℚ), some (Rat.divInt 1 5)) ∉
      [((some 200 : Option ℚ), some (Rat.divInt 1 10))] := by
  decide

/-- C7 (amended): every successful absorbance decode is sorted ascending by
excitation wavelength (missing keys last); but on the claim's example input
`[(200, 0.1), (205, 0.2), (210, NaN), (X, X)]` the output holds exactly the
row for wavelength 200 — the first missing value cell is at index 2, so the
slice `[: 2-1]` drops the 205 row along with the rest. -/
theorem c7_sorted_output :
    (∀ (header : List String) (body : List (List Cell))
        (out : List (Option ℚ × Option ℚ)),
      loadAbsorbance header body = some out → List.Sorted absLe out) ∧
    loadAbsorbance ["Wavelength (nm)", "Abs"] c7body
      = some [(some 200, some (Rat.divInt 1 10))] := by
  constructor
  · intro header body out h
    rw [loadAbsorbance] at h
    cases hw : header.findIdx? (· == "Wavelength (nm)") with
    | none => rw [hw] at h; simp at h
    | some wj =>
      cases hab : header.findIdx? (· == "Abs") with
      | none => rw [hw, hab] at h; simp at h
      | some aj =>
        rw [hw, hab] at h
        simp only [Option.some.injEq] at h
        rw [← h]
        exact List.sorted_insertionSort absLe _
  · decide

theorem c7_witness :
    List.Sorted absLe [((some 200 : Option ℚ), some (Rat.divInt 1 10))] :=
  c7_sorted_output.1 ["Wavelength (nm)", "Abs"] c7body
    [(some 200, some (Rat.divInt 1 10))] (by decide)

end PyEEM
